import Mathlib

/-!
Verification of the Chesster chess engine and match lifecycle model.

The definitions below are a shallow embedding of the repository's JavaScript
source: the chess rules engine (services/chessEngine.js, the `ChessEngine`
class) and the match state machine (backend/models/gameModel.js, the
`GameModel` class).  Pieces are single characters exactly as in the source
(uppercase = White, lowercase = Black, '.' = empty); a board is a total
function from (row, column) pairs in [0,7]^2 to characters; JavaScript row
arithmetic (which may go negative) is carried out on integers.
-/

namespace Chesster

/-- Side to move, mirroring the source's "white" / "black" strings. -/
inductive Color where
  | white
  | black
deriving DecidableEq, Repr

/-- An 8x8 board of piece characters, as in the source's array of arrays. -/
abbrev Board := Fin 8 → Fin 8 → Char

/-- A (row, column) square. -/
abbrev Pos := Fin 8 × Fin 8

/-- Row/column index as an integer (JavaScript number arithmetic). -/
def rI (x : Fin 8) : Int := (x : Nat)

/-- Record of the most recently applied move, as stored in the game row's
last_move column: positions plus the moved piece character. -/
structure LastMove where
  fromPos : Pos
  toPos : Pos
  piece : Char
deriving DecidableEq, Repr

/-- Functional update of a single board cell (the source mutates a cloned
array; the embedding overrides one square). -/
def setCell (b : Board) (p : Pos) (ch : Char) : Board :=
  fun r c => if r = p.1 ∧ c = p.2 then ch else b r c

/-- Board lookup at integer coordinates; out-of-range reads (impossible in
the guarded call sites of the source) yield the sentinel character. -/
def atI (b : Board) (r c : Int) : Char :=
  if h : 0 ≤ r ∧ r < 8 ∧ 0 ≤ c ∧ c < 8 then
    b ⟨r.toNat, by omega⟩ ⟨c.toNat, by omega⟩
  else '?'

/-- Row-major enumeration of all 64 squares (the nested for loops of the
source). -/
def allPos : List Pos :=
  (List.finRange 8).flatMap fun r => (List.finRange 8).map fun c => (r, c)

/-- Builds a board from explicit rows (the source's literal arrays). -/
def boardOfRows (rows : List (List Char)) : Board :=
  fun r c => ((rows.getD (r : Nat) []).getD (c : Nat) '?')

namespace ChessEngine

/-- The initial position, from ChessEngine.initBoard. -/
def initBoard : Board := boardOfRows
  [['r', 'n', 'b', 'q', 'k', 'b', 'n', 'r'],
   ['p', 'p', 'p', 'p', 'p', 'p', 'p', 'p'],
   ['.', '.', '.', '.', '.', '.', '.', '.'],
   ['.', '.', '.', '.', '.', '.', '.', '.'],
   ['.', '.', '.', '.', '.', '.', '.', '.'],
   ['.', '.', '.', '.', '.', '.', '.', '.'],
   ['P', 'P', 'P', 'P', 'P', 'P', 'P', 'P'],
   ['R', 'N', 'B', 'Q', 'K', 'B', 'N', 'R']]

/-- ChessEngine.isPathClear's while loop, with explicit fuel (8 exceeds the
longest possible path on an 8x8 board, so the fuel never runs out at the
source's guarded call sites). -/
def pathClearAux (b : Board) (rowStep colStep toR toC : Int) :
    Nat → Int → Int → Bool
  | 0, _, _ => false
  | (fuel + 1), r, c =>
    if r = toR ∧ c = toC then true
    else if atI b r c ≠ '.' then false
    else pathClearAux b rowStep colStep toR toC fuel (r + rowStep) (c + colStep)

/-- ChessEngine.isPathClear: every square strictly between source and
destination along the sign-step ray is empty. -/
def isPathClear (b : Board) (f t : Pos) : Bool :=
  let rowStep : Int := if rI t.1 > rI f.1 then 1 else if rI t.1 < rI f.1 then -1 else 0
  let colStep : Int := if rI t.2 > rI f.2 then 1 else if rI t.2 < rI f.2 then -1 else 0
  pathClearAux b rowStep colStep (rI t.1) (rI t.2) 8 (rI f.1 + rowStep) (rI f.2 + colStep)

/-- ChessEngine.isValidRookMove. -/
def isValidRookMove (b : Board) (f t : Pos) : Bool :=
  if f.1 ≠ t.1 ∧ f.2 ≠ t.2 then false else isPathClear b f t

/-- ChessEngine.isValidKnightMove. -/
def isValidKnightMove (f t : Pos) : Bool :=
  let rd := (rI t.1 - rI f.1).natAbs
  let cd := (rI t.2 - rI f.2).natAbs
  decide ((rd = 2 ∧ cd = 1) ∨ (rd = 1 ∧ cd = 2))

/-- ChessEngine.isValidBishopMove. -/
def isValidBishopMove (b : Board) (f t : Pos) : Bool :=
  if (rI t.1 - rI f.1).natAbs ≠ (rI t.2 - rI f.2).natAbs then false
  else isPathClear b f t

/-- ChessEngine.isValidQueenMove. -/
def isValidQueenMove (b : Board) (f t : Pos) : Bool :=
  isValidRookMove b f t || isValidBishopMove b f t

/-- ChessEngine.isValidKingMove. -/
def isValidKingMove (f t : Pos) : Bool :=
  decide ((rI t.1 - rI f.1).natAbs ≤ 1 ∧ (rI t.2 - rI f.2).natAbs ≤ 1)

/-- ChessEngine.makeMove: pure board transform.  Clears the en-passant
victim square (mover's origin row, destination column) when flagged, moves
the piece, and, for a pawn arriving on row 0 or 7 with a promotion piece
supplied, replaces it by the promotion character case-adjusted to the
mover's color. -/
def makeMove (b : Board) (f t : Pos) (promotion : Option Char)
    (isEnPassant : Bool) : Board :=
  let piece := b f.1 f.2
  let b0 := if isEnPassant then setCell b (f.1, t.2) '.' else b
  let b1 := setCell b0 t (b0 f.1 f.2)
  let b2 := setCell b1 f '.'
  if piece.toLower = 'p' ∧ (t.1 = (0 : Fin 8) ∨ t.1 = (7 : Fin 8)) then
    match promotion with
    | some p => setCell b2 t (if piece = piece.toUpper then p.toUpper else p.toLower)
    | none => b2
  else b2

/-- The king character of a color ('K' for White, 'k' for Black). -/
def kingChar : Color → Char
  | Color.white => 'K'
  | Color.black => 'k'

/-- The source's opponent test: for White an opponent piece equals its own
lowercase form; for Black its own uppercase form. -/
def isOpponentPiece (color : Color) (c : Char) : Bool :=
  match color with
  | Color.white => decide (c = c.toLower)
  | Color.black => decide (c = c.toUpper)

/-- First square (row-major) holding the given color's king, as in the
scanning loop of ChessEngine.isKingInCheck. -/
def findKing (b : Board) (color : Color) : Option Pos :=
  allPos.find? fun s => decide (b s.1 s.2 = kingChar color)

/-- Whether the piece on square s attacks square kp, per the switch in
ChessEngine.isKingInCheck (pawns attack one diagonal step in their forward
direction; other pieces reuse their movement shape). -/
def attacksFrom (b : Board) (color : Color) (s kp : Pos) : Bool :=
  let piece := b s.1 s.2
  if piece = '.' then false
  else if ¬ isOpponentPiece color piece then false
  else
    let pl := piece.toLower
    if pl = 'p' then
      let dir : Int := if piece = piece.toUpper then -1 else 1
      decide (rI kp.1 = rI s.1 + dir ∧ (rI kp.2 - rI s.2).natAbs = 1)
    else if pl = 'n' then isValidKnightMove s kp
    else if pl = 'b' then isValidBishopMove b s kp
    else if pl = 'r' then isValidRookMove b s kp
    else if pl = 'q' then isValidQueenMove b s kp
    else if pl = 'k' then isValidKingMove s kp
    else false

/-- ChessEngine.isKingInCheck: false when the king is absent; otherwise true
iff some opposing piece attacks the first-found king square. -/
def isKingInCheck (b : Board) (color : Color) : Bool :=
  match findKing b color with
  | none => false
  | some kp => allPos.any fun s => attacksFrom b color s kp

/-- Result of ChessEngine.isValidPawnMove (the absent enPassant property of
the source's object literal reads back as false). -/
structure PawnRes where
  valid : Bool
  enPassant : Bool
deriving DecidableEq, Repr

/-- ChessEngine.isValidPawnMove: single/double forward pushes onto empty
squares, diagonal captures onto occupied squares, and the en-passant branch
keyed on the last move being a two-row pawn advance landing on the mover's
origin row in the destination column. -/
def isValidPawnMove (b : Board) (f t : Pos) (turn : Color)
    (lm : Option LastMove) : PawnRes :=
  let direction : Int := if turn = Color.white then -1 else 1
  let startRow : Nat := if turn = Color.white then 6 else 1
  let rowDiff : Int := rI t.1 - rI f.1
  let colDiff : Nat := (rI t.2 - rI f.2).natAbs
  if colDiff = 0 then
    if rowDiff = direction ∧ b t.1 t.2 = '.' then ⟨true, false⟩
    else if (f.1 : Nat) = startRow ∧ rowDiff = 2 * direction ∧ b t.1 t.2 = '.' ∧
        atI b (rI f.1 + direction) (rI f.2) = '.' then ⟨true, false⟩
    else ⟨false, false⟩
  else if colDiff = 1 ∧ rowDiff = direction then
    if b t.1 t.2 ≠ '.' then ⟨true, false⟩
    else
      match lm with
      | some m =>
        if m.piece.toLower = 'p' ∧ (rI m.toPos.1 - rI m.fromPos.1).natAbs = 2 ∧
            m.toPos.1 = f.1 ∧ m.toPos.2 = t.2 then ⟨true, true⟩
        else ⟨false, false⟩
      | none => ⟨false, false⟩
  else ⟨false, false⟩

/-- Result of ChessEngine.isValidMove. -/
structure ValidResult where
  valid : Bool
  reason : Option String
  enPassant : Bool
deriving DecidableEq, Repr

/-- ChessEngine.isValidMove: source-square and ownership checks, no capture
of own pieces, per-piece shape dispatch, then the self-check filter that
tentatively applies the move (with no promotion) and rejects it if the
mover's own king would be in check. -/
def isValidMove (b : Board) (f t : Pos) (turn : Color)
    (lm : Option LastMove) : ValidResult :=
  let piece := b f.1 f.2
  if piece = '.' then ⟨false, some "No piece at source", false⟩
  else if (turn = Color.white ∧ piece = piece.toLower) ∨
      (turn = Color.black ∧ piece = piece.toUpper) then
    ⟨false, some "Not your piece", false⟩
  else
    let target := b t.1 t.2
    if target ≠ '.' ∧ ((turn = Color.white ∧ target = target.toUpper) ∨
        (turn = Color.black ∧ target = target.toLower)) then
      ⟨false, some "Cannot capture own piece", false⟩
    else
      let pieceLower := piece.toLower
      let shape : Option (Bool × Bool) :=
        if pieceLower = 'p' then
          let pr := isValidPawnMove b f t turn lm
          some (pr.valid, pr.enPassant)
        else if pieceLower = 'r' then some (isValidRookMove b f t, false)
        else if pieceLower = 'n' then some (isValidKnightMove f t, false)
        else if pieceLower = 'b' then some (isValidBishopMove b f t, false)
        else if pieceLower = 'q' then some (isValidQueenMove b f t, false)
        else if pieceLower = 'k' then some (isValidKingMove f t, false)
        else none
      match shape with
      | none => ⟨false, some "Unknown piece", false⟩
      | some (ok, isEnPassant) =>
        if ok = false then ⟨false, some "Illegal move for piece", false⟩
        else if isKingInCheck (makeMove b f t none isEnPassant) turn then
          ⟨false, some "Move leaves king in check", false⟩
        else ⟨true, none, isEnPassant⟩

/-- The source's own-piece test in hasLegalMoves. -/
def isPlayerPiece (color : Color) (c : Char) : Bool :=
  match color with
  | Color.white => decide (c = c.toUpper)
  | Color.black => decide (c = c.toLower)

/-- ChessEngine.hasLegalMoves: some piece of the color has a valid move to
some square. -/
def hasLegalMoves (b : Board) (color : Color) (lm : Option LastMove) : Bool :=
  allPos.any fun s =>
    let piece := b s.1 s.2
    if piece = '.' then false
    else if ¬ isPlayerPiece color piece then false
    else allPos.any fun t => (isValidMove b s t color lm).valid

/-- ChessEngine.isCheckmate. -/
def isCheckmate (b : Board) (color : Color) (lm : Option LastMove) : Bool :=
  isKingInCheck b color && ! hasLegalMoves b color lm

/-- ChessEngine.isStalemate. -/
def isStalemate (b : Board) (color : Color) (lm : Option LastMove) : Bool :=
  ! isKingInCheck b color && ! hasLegalMoves b color lm

end ChessEngine

/-- Game outcome as stored in the winner column ("white" / "black" / "draw"). -/
inductive GWinner where
  | white
  | black
  | draw
deriving DecidableEq, Repr

/-- The winner value corresponding to a color string. -/
def colorWinner : Color → GWinner
  | Color.white => GWinner.white
  | Color.black => GWinner.black

/-- The opposite color (the source's ternary turn flip). -/
def oppColor : Color → Color
  | Color.white => Color.black
  | Color.black => Color.white

/-- A row of the moves table (GameModel.makeMove's insert): immutable
per-move audit record. -/
structure MoveRecord where
  moveNumber : Nat
  player : Color
  fromPos : Pos
  toPos : Pos
  piece : Char
  boardAfter : Board
  isCheck : Bool
  isCheckmate : Bool
  promotion : Option Char
deriving DecidableEq

/-- A games-table row: the authoritative per-match aggregate mutated by the
GameModel operations.  The moves field models the append-only moves table
restricted to this game; turnStartedAt holds an abstract timestamp. -/
structure Match where
  boardState : Board
  currentTurn : Color
  status : String
  winner : Option GWinner
  inCheck : Bool
  lastMove : Option LastMove
  drawOffer : Option Color
  capturedWhite : List Char
  capturedBlack : List Char
  moveCount : Nat
  playerWhite : Bool
  playerBlack : Bool
  playerWhiteAddress : Option String
  playerBlackAddress : Option String
  wagerAmount : Option Nat
  escrowStatus : Option String
  turnStartedAt : Nat
  moves : List MoveRecord
deriving DecidableEq

/-- JavaScript truthiness of the wager_amount column (null and 0 are falsy). -/
def wagerTruthy : Option Nat → Bool
  | none => false
  | some a => decide (a ≠ 0)

/-- Membership test used for king capture: newBoard.some(row =>
row.includes(ch)). -/
def boardHasChar (b : Board) (ch : Char) : Bool :=
  allPos.any fun s => decide (b s.1 s.2 = ch)

namespace GameModel

open ChessEngine

/-- The committed games-row update of GameModel.makeMove (the source's single
supabase update plus the moves insert and move_count bump): commits the new
board, flips the turn, tracks captures (direct and en passant), detects king
capture / checkmate / stalemate termination, records the move, resets the
turn timestamp and bumps the move count. -/
def makeMoveUpdate (g : Match) (f t : Pos) (promotion : Option Char)
    (now : Nat) : Match :=
  let validation := isValidMove g.boardState f t g.currentTurn g.lastMove
  let piece := g.boardState f.1 f.2
  let newBoard := ChessEngine.makeMove g.boardState f t promotion validation.enPassant
  let nextTurn := oppColor g.currentTurn
  let targetPiece := g.boardState t.1 t.2
  let capturedWhite :=
    if targetPiece ≠ '.' ∧ targetPiece = targetPiece.toUpper then
      g.capturedWhite ++ [targetPiece] else g.capturedWhite
  let capturedBlack :=
    if targetPiece ≠ '.' ∧ ¬ targetPiece = targetPiece.toUpper then
      g.capturedBlack ++ [targetPiece] else g.capturedBlack
  let epRow : Int :=
    if g.currentTurn = Color.white then rI t.1 + 1 else rI t.1 - 1
  let cw :=
    if validation.enPassant ∧ atI g.boardState epRow (rI t.2) ≠ '.' ∧
        atI g.boardState epRow (rI t.2) = (atI g.boardState epRow (rI t.2)).toUpper then
      capturedWhite ++ [atI g.boardState epRow (rI t.2)] else capturedWhite
  let cb :=
    if validation.enPassant ∧ atI g.boardState epRow (rI t.2) ≠ '.' ∧
        ¬ atI g.boardState epRow (rI t.2) = (atI g.boardState epRow (rI t.2)).toUpper then
      capturedBlack ++ [atI g.boardState epRow (rI t.2)] else capturedBlack
  let opponentKing := kingChar nextTurn
  let kingCaptured := ! boardHasChar newBoard opponentKing
  let moveRec : LastMove := ⟨f, t, piece⟩
  let isCheck := if kingCaptured then false else isKingInCheck newBoard nextTurn
  let isMate :=
    if kingCaptured then false else isCheckmate newBoard nextTurn (some moveRec)
  let isStale :=
    if kingCaptured then false else isStalemate newBoard nextTurn (some moveRec)
  let newStatus :=
    if kingCaptured || isMate then "finished"
    else if isStale then "finished" else g.status
  let newWinner : Option GWinner :=
    if kingCaptured || isMate then some (colorWinner g.currentTurn)
    else if isStale then some GWinner.draw else none
  let record : MoveRecord :=
    { moveNumber := g.moveCount + 1, player := g.currentTurn,
      fromPos := f, toPos := t, piece := piece, boardAfter := newBoard,
      isCheck := isCheck, isCheckmate := isMate, promotion := promotion }
  { g with
    boardState := newBoard,
    currentTurn := nextTurn,
    lastMove := some moveRec,
    inCheck := isCheck,
    status := newStatus,
    winner := newWinner,
    capturedWhite := cw,
    capturedBlack := cb,
    turnStartedAt := now,
    moves := g.moves ++ [record],
    moveCount := g.moveCount + 1 }

/-- GameModel.makeMove: rejects when the game is not active, when the
legality engine rejects the move, or when a promotion move arrives with no
promotion piece; otherwise performs the committed update.  An error models a
thrown exception; every throw in the source happens before any database
write. -/
def makeMove (g : Match) (f t : Pos) (promotion : Option Char) (now : Nat) :
    Except String Match :=
  if g.status ≠ "active" then .error "Game not active"
  else
    let validation := isValidMove g.boardState f t g.currentTurn g.lastMove
    if validation.valid = false then
      .error (validation.reason.getD "Invalid move")
    else
      let piece := g.boardState f.1 f.2
      if (piece.toLower = 'p' ∧ (t.1 = (0 : Fin 8) ∨ t.1 = (7 : Fin 8))) ∧
          promotion = none then
        .error "Promotion piece required"
      else
        .ok (makeMoveUpdate g f t promotion now)

/-- The stored games row after a makeMove call: every throw in the source
occurs before the update statement, so an error leaves the row untouched. -/
def makeMoveDB (g : Match) (f t : Pos) (promotion : Option Char) (now : Nat) :
    Match :=
  match makeMove g f t promotion now with
  | .ok g' => g'
  | .error _ => g

/-- GameModel.resignGame: unconditionally marks the game finished with the
opponent as winner (the source has no status guard). -/
def resignGame (g : Match) (playerColor : Color) : Match :=
  { g with status := "finished", winner := some (colorWinner (oppColor playerColor)) }

/-- GameModel.offerDraw: records the offering color (no status guard). -/
def offerDraw (g : Match) (playerColor : Color) : Match :=
  { g with drawOffer := some playerColor }

/-- GameModel.acceptDraw: unconditionally marks the game finished as a draw
and clears the offer (the source has no status guard). -/
def acceptDraw (g : Match) : Match :=
  { g with status := "finished", winner := some GWinner.draw, drawOffer := none }

/-- GameModel.forfeitTurn: no-op unless the game is active; otherwise flips
the turn and resets the turn timestamp, touching nothing else. -/
def forfeitTurn (g : Match) (now : Nat) : Match :=
  if g.status ≠ "active" then g
  else { g with currentTurn := oppColor g.currentTurn, turnStartedAt := now }

/-- GameModel.joinGame: rejects finished games, rejects a wallet already
occupying the other slot, and rejects a join when both slots are taken and
the requested slot is taken (the source's nested if); otherwise fills the
requested slot, stores the address, and activates the game (starting the
turn clock) exactly when the other slot was already filled. -/
def joinGame (g : Match) (playerColor : Color) (playerAddress : Option String)
    (now : Nat) : Except String Match :=
  if g.status ≠ "waiting" ∧ g.status ≠ "active" then .error "Cannot join game"
  else
    let otherColorAddress :=
      if playerColor = Color.white then g.playerBlackAddress else g.playerWhiteAddress
    if playerAddress ≠ none ∧ otherColorAddress = playerAddress then
      .error "You cannot play against yourself"
    else if g.playerWhite = true ∧ g.playerBlack = true ∧
        (if playerColor = Color.white then g.playerWhite else g.playerBlack) = true then
      .error "Player color already taken"
    else
      let bothPlayersJoined : Bool :=
        if playerColor = Color.white then g.playerBlack else g.playerWhite
      .ok { g with
        playerWhite := if playerColor = Color.white then true else g.playerWhite,
        playerBlack := if playerColor = Color.black then true else g.playerBlack,
        playerWhiteAddress :=
          if playerColor = Color.white then playerAddress else g.playerWhiteAddress,
        playerBlackAddress :=
          if playerColor = Color.black then playerAddress else g.playerBlackAddress,
        status := if bothPlayersJoined then "active" else "waiting",
        escrowStatus :=
          if bothPlayersJoined && wagerTruthy g.wagerAmount then some "active"
          else g.escrowStatus,
        turnStartedAt := if bothPlayersJoined then now else g.turnStartedAt }

/-- The coordinator's read model of the external contract's match record
(EscrowMatchView restricted to the fields GameModel._settleEscrow reads). -/
structure ChainMatch where
  createdAt : Nat
  status : Fin 4
deriving DecidableEq, Repr

/-- Observable outcome of one _settleEscrow invocation: how many external
resolve transactions were issued and the escrow_status value written to the
games row (none when the row is untouched). -/
structure SettleOutcome where
  resolveCalls : Nat
  escrowStatus : Option String
deriving DecidableEq, Repr

/-- GameModel._settleEscrow: no-op without a wager; on a getMatch failure
(chain = none) marks the escrow failed; reconciles an already Resolved (2) or
Refunded (3) on-chain status without issuing any call; marks failed when the
match is absent on-chain or still Pending (0); otherwise issues exactly one
resolve transaction (draw signal or the winner's recorded address), marking
the escrow settled on success and failed on error or missing address. -/
def settleEscrow (g : Match) (winner : GWinner) (chain : Option ChainMatch)
    (resolveOk : Bool) : SettleOutcome :=
  if ! wagerTruthy g.wagerAmount then ⟨0, none⟩
  else
    match chain with
    | none => ⟨0, some "failed"⟩
    | some onChain =>
      if onChain.status = (2 : Fin 4) then ⟨0, some "settled"⟩
      else if onChain.status = (3 : Fin 4) then ⟨0, some "refunded"⟩
      else if onChain.createdAt = 0 then ⟨0, some "failed"⟩
      else if onChain.status = (0 : Fin 4) then ⟨0, some "failed"⟩
      else
        if winner = GWinner.draw then
          ⟨1, some (if resolveOk then "settled" else "failed")⟩
        else
          let winnerAddress :=
            if winner = GWinner.white then g.playerWhiteAddress
            else g.playerBlackAddress
          match winnerAddress with
          | none => ⟨0, some "failed"⟩
          | some _ => ⟨1, some (if resolveOk then "settled" else "failed")⟩

/-- ChessterEscrow.resolveMatch's effect on the on-chain record: callable
only while ACTIVE (1), after which the status is RESOLVED (2). -/
def chainResolve (c : ChainMatch) : ChainMatch := { c with status := (2 : Fin 4) }

end GameModel

/-! Concrete sample inputs used by the witnesses and counterexamples. -/

/-- An active two-player match on the initial position. -/
def sampleActive : Match :=
  { boardState := ChessEngine.initBoard, currentTurn := Color.white,
    status := "active", winner := none, inCheck := false, lastMove := none,
    drawOffer := none, capturedWhite := [], capturedBlack := [],
    moveCount := 0, playerWhite := true, playerBlack := true,
    playerWhiteAddress := none, playerBlackAddress := none,
    wagerAmount := none, escrowStatus := none, turnStartedAt := 0,
    moves := [] }

/-- A finished match decisively won by White. -/
def sampleFinished : Match :=
  { sampleActive with status := "finished", winner := some GWinner.white }

/-- A waiting match whose white slot (and address) is already taken. -/
def cexJoin : Match :=
  { sampleActive with
    status := "waiting", playerWhite := true,
    playerBlack := false, playerWhiteAddress := some "0xAAA" }

/-- A wagered active match with both players' wallet addresses recorded. -/
def sampleWagered : Match :=
  { sampleActive with
    wagerAmount := some 5, escrowStatus := some "active",
    playerWhiteAddress := some "0xAAA", playerBlackAddress := some "0xBBB" }

/-- Board refuting unrestricted-promotion self-check safety: the white pawn
on (1,0) may promote on (0,0), where the black rook on (0,7) sweeps the back
rank; the real white king on (3,3) is safe. -/
def cexC1Board : Board := boardOfRows
  [['.', '.', '.', '.', '.', '.', '.', 'r'],
   ['P', '.', '.', '.', '.', '.', '.', '.'],
   ['.', '.', '.', '.', '.', '.', '.', '.'],
   ['.', '.', '.', 'K', '.', '.', '.', '.'],
   ['.', '.', '.', '.', '.', '.', '.', '.'],
   ['.', '.', '.', '.', '.', '.', '.', '.'],
   ['.', '.', '.', '.', '.', '.', '.', '.'],
   ['.', '.', '.', '.', '.', '.', '.', 'k']]

/-- Board with a white pawn one step from promotion on (0,6). -/
def promotionBoard : Board := boardOfRows
  [['.', '.', '.', '.', '.', '.', '.', '.'],
   ['.', '.', '.', '.', '.', '.', 'P', '.'],
   ['.', '.', '.', '.', '.', '.', '.', '.'],
   ['.', '.', '.', '.', '.', '.', '.', '.'],
   ['k', '.', '.', '.', '.', '.', '.', '.'],
   ['.', '.', '.', '.', '.', '.', '.', '.'],
   ['.', '.', '.', '.', '.', '.', '.', '.'],
   ['.', '.', '.', '.', '.', '.', '.', 'K']]

/-- An active match on the promotion board. -/
def samplePromotion : Match := { sampleActive with boardState := promotionBoard }

/-- Board where the white rook on (3,0) can capture the black king on (3,7)
outright. -/
def kingCaptureBoard : Board := boardOfRows
  [['.', '.', '.', '.', '.', '.', '.', '.'],
   ['.', '.', '.', '.', '.', '.', '.', '.'],
   ['.', '.', '.', '.', '.', '.', '.', '.'],
   ['R', '.', '.', '.', '.', '.', '.', 'k'],
   ['.', '.', '.', '.', '.', '.', '.', '.'],
   ['.', '.', '.', '.', '.', '.', '.', '.'],
   ['.', '.', '.', '.', '.', '.', '.', '.'],
   ['K', '.', '.', '.', '.', '.', '.', '.']]

/-- An active match on the king-capture board. -/
def sampleKingCapture : Match := { sampleActive with boardState := kingCaptureBoard }

/-- Board set up for en passant: Black's d-pawn just double-stepped from
(1,3) to (3,3), next to White's pawn on (3,4). -/
def epBoard : Board := boardOfRows
  [['.', '.', '.', '.', 'k', '.', '.', '.'],
   ['.', '.', '.', '.', '.', '.', '.', '.'],
   ['.', '.', '.', '.', '.', '.', '.', '.'],
   ['.', '.', '.', 'p', 'P', '.', '.', '.'],
   ['.', '.', '.', '.', '.', '.', '.', '.'],
   ['.', '.', '.', '.', '.', '.', '.', '.'],
   ['.', '.', '.', '.', '.', '.', '.', '.'],
   ['.', '.', '.', '.', 'K', '.', '.', '.']]

/-- The last move justifying en passant on epBoard. -/
def epLastMove : LastMove :=
  { fromPos := ((1 : Fin 8), (3 : Fin 8)), toPos := ((3 : Fin 8), (3 : Fin 8)),
    piece := 'p' }

/-- The promotion character as actually placed: case-adjusted to the moving
pawn's color. -/
def promoCaseAdjusted (piece p : Char) : Char :=
  if piece = piece.toUpper then p.toUpper else p.toLower

/-- Number of squares holding a given character. -/
def countChar (b : Board) (ch : Char) : Nat :=
  allPos.countP fun s => decide (b s.1 s.2 = ch)

/-- A standard promotion choice: absent, or one of the four ordinary piece
letters in either case.  Promoting to a king (or to the empty-cell marker)
falls outside this set. -/
def promoStd (p : Option Char) : Prop :=
  p = none ∨ ∃ c, p = some c ∧ c ∈ (['q', 'r', 'b', 'n', 'Q', 'R', 'B', 'N'] : List Char)

/-! Claim theorems, preceded by the supporting lemmas they need. -/

/-- find? returns the same result for pointwise-equal predicates. -/
theorem find_congr_list {α : Type} (p q : α → Bool) :
    ∀ l : List α, (∀ x ∈ l, p x = q x) → l.find? p = l.find? q := by
  intro l
  induction l with
  | nil => intro _; rfl
  | cons a l ih =>
    intro h
    have ha := h a (List.mem_cons_self a l)
    cases hpa : p a with
    | true =>
      rw [List.find?_cons_of_pos _ hpa, List.find?_cons_of_pos _ (by rw [← ha]; exact hpa)]
    | false =>
      rw [List.find?_cons_of_neg _ (by simp [hpa]),
        List.find?_cons_of_neg _ (by simp [← ha, hpa])]
      exact ih fun x hx => h x (List.mem_cons_of_mem a hx)

/-- any returns the same result for pointwise-equal predicates. -/
theorem any_congr_list {α : Type} (p q : α → Bool) :
    ∀ l : List α, (∀ x ∈ l, p x = q x) → l.any p = l.any q := by
  intro l
  induction l with
  | nil => intro _; rfl
  | cons a l ih =>
    intro h
    simp only [List.any_cons]
    rw [h a (List.mem_cons_self a l), ih fun x hx => h x (List.mem_cons_of_mem a hx)]

/-- Overriding an occupied square with another occupied character preserves
the emptiness of every cell. -/
theorem setCell_occ_cell (b : Board) (t : Pos) (c2 : Char)
    (h1 : b t.1 t.2 ≠ '.') (h2 : c2 ≠ '.') :
    ∀ p : Pos, (setCell b t c2 p.1 p.2 = '.') = (b p.1 p.2 = '.') := by
  intro p
  unfold setCell
  by_cases he : (p.1 = t.1 ∧ p.2 = t.2)
  · rw [if_pos he, he.1, he.2]
    simp [h1, h2]
  · rw [if_neg he]

/-- The same preservation through integer-coordinate lookups. -/
theorem atI_occ (b : Board) (t : Pos) (c2 : Char)
    (h1 : b t.1 t.2 ≠ '.') (h2 : c2 ≠ '.') :
    ∀ r c : Int, (atI (setCell b t c2) r c = '.') = (atI b r c = '.') := by
  intro r c
  unfold atI
  by_cases hb : (0 ≤ r ∧ r < 8 ∧ 0 ≤ c ∧ c < 8)
  · rw [dif_pos hb, dif_pos hb]
    exact setCell_occ_cell b t c2 h1 h2 (⟨r.toNat, by omega⟩, ⟨c.toNat, by omega⟩)
  · rw [dif_neg hb, dif_neg hb]

/-- The path-walk loop depends only on cell emptiness. -/
theorem pathClearAux_congr (b1 b2 : Board) (rs cs tr tc : Int)
    (hocc : ∀ r c : Int, (atI b1 r c = '.') = (atI b2 r c = '.')) :
    ∀ (fuel : Nat) (r c : Int),
      ChessEngine.pathClearAux b1 rs cs tr tc fuel r c =
        ChessEngine.pathClearAux b2 rs cs tr tc fuel r c := by
  intro fuel
  induction fuel with
  | zero => intro r c; rfl
  | succ n ih =>
    intro r c
    unfold ChessEngine.pathClearAux
    by_cases h1 : (r = tr ∧ c = tc)
    · rw [if_pos h1, if_pos h1]
    · rw [if_neg h1, if_neg h1]
      by_cases h2 : (atI b1 r c ≠ '.')
      · rw [if_pos h2, if_pos (fun hx => h2 ((hocc r c).mpr hx))]
      · rw [if_neg h2, if_neg (fun hx => hx ((hocc r c).mp (not_not.mp h2)))]
        exact ih _ _

/-- isPathClear depends only on cell emptiness. -/
theorem isPathClear_congr (b1 b2 : Board)
    (hocc : ∀ r c : Int, (atI b1 r c = '.') = (atI b2 r c = '.')) (f t : Pos) :
    ChessEngine.isPathClear b1 f t = ChessEngine.isPathClear b2 f t := by
  unfold ChessEngine.isPathClear
  exact pathClearAux_congr b1 b2 _ _ _ _ hocc 8 _ _

/-- Rook shape depends only on cell emptiness. -/
theorem rook_congr (b1 b2 : Board)
    (hocc : ∀ r c : Int, (atI b1 r c = '.') = (atI b2 r c = '.')) (f t : Pos) :
    ChessEngine.isValidRookMove b1 f t = ChessEngine.isValidRookMove b2 f t := by
  unfold ChessEngine.isValidRookMove
  by_cases h : (f.1 ≠ t.1 ∧ f.2 ≠ t.2)
  · rw [if_pos h, if_pos h]
  · rw [if_neg h, if_neg h]
    exact isPathClear_congr b1 b2 hocc f t

/-- Bishop shape depends only on cell emptiness. -/
theorem bishop_congr (b1 b2 : Board)
    (hocc : ∀ r c : Int, (atI b1 r c = '.') = (atI b2 r c = '.')) (f t : Pos) :
    ChessEngine.isValidBishopMove b1 f t = ChessEngine.isValidBishopMove b2 f t := by
  unfold ChessEngine.isValidBishopMove
  by_cases h : ((rI t.1 - rI f.1).natAbs ≠ (rI t.2 - rI f.2).natAbs)
  · rw [if_pos h, if_pos h]
  · rw [if_neg h, if_neg h]
    exact isPathClear_congr b1 b2 hocc f t

/-- Queen shape depends only on cell emptiness. -/
theorem queen_congr (b1 b2 : Board)
    (hocc : ∀ r c : Int, (atI b1 r c = '.') = (atI b2 r c = '.')) (f t : Pos) :
    ChessEngine.isValidQueenMove b1 f t = ChessEngine.isValidQueenMove b2 f t := by
  unfold ChessEngine.isValidQueenMove
  rw [rook_congr b1 b2 hocc f t, bishop_congr b1 b2 hocc f t]

/-- C9: for every active match, forfeitTurn flips sideToMove to the opponent
and resets the turn-start timestamp while changing nothing else — board,
status (still active, so the game does not end), winner, captured tallies,
last move, move count and move log are all unchanged. -/
theorem forfeitTurn_flips_turn_only (g : Match) (now : Nat)
    (h : g.status = "active") :
    (GameModel.forfeitTurn g now).currentTurn = oppColor g.currentTurn ∧
    (GameModel.forfeitTurn g now).turnStartedAt = now ∧
    (GameModel.forfeitTurn g now).boardState = g.boardState ∧
    (GameModel.forfeitTurn g now).status = "active" ∧
    (GameModel.forfeitTurn g now).winner = g.winner ∧
    (GameModel.forfeitTurn g now).capturedWhite = g.capturedWhite ∧
    (GameModel.forfeitTurn g now).capturedBlack = g.capturedBlack ∧
    (GameModel.forfeitTurn g now).lastMove = g.lastMove ∧
    (GameModel.forfeitTurn g now).moveCount = g.moveCount ∧
    (GameModel.forfeitTurn g now).moves = g.moves := by
  simp [GameModel.forfeitTurn, h]

/-- Witness for forfeitTurn_flips_turn_only at a concrete active match. -/
theorem forfeitTurn_flips_turn_only_witness :
    sampleActive.status = "active" ∧
    ((GameModel.forfeitTurn sampleActive 7).currentTurn = oppColor sampleActive.currentTurn ∧
     (GameModel.forfeitTurn sampleActive 7).turnStartedAt = 7 ∧
     (GameModel.forfeitTurn sampleActive 7).boardState = sampleActive.boardState ∧
     (GameModel.forfeitTurn sampleActive 7).status = "active" ∧
     (GameModel.forfeitTurn sampleActive 7).winner = sampleActive.winner ∧
     (GameModel.forfeitTurn sampleActive 7).capturedWhite = sampleActive.capturedWhite ∧
     (GameModel.forfeitTurn sampleActive 7).capturedBlack = sampleActive.capturedBlack ∧
     (GameModel.forfeitTurn sampleActive 7).lastMove = sampleActive.lastMove ∧
     (GameModel.forfeitTurn sampleActive 7).moveCount = sampleActive.moveCount ∧
     (GameModel.forfeitTurn sampleActive 7).moves = sampleActive.moves) :=
  ⟨rfl, forfeitTurn_flips_turn_only sampleActive 7 rfl⟩

/-- C2 counterexample: a finished match is not left unchanged by every
operation — acceptDraw overwrites the decisive winner of an already finished
match with a draw. -/
theorem finished_not_immutable_counterexample :
    sampleFinished.status = "finished" ∧
    sampleFinished.winner = some GWinner.white ∧
    (GameModel.acceptDraw sampleFinished).winner = some GWinner.draw := by
  exact ⟨rfl, rfl, rfl⟩

/-- C2 amended: on a finished match, makeMove always fails and forfeitTurn
is the identity, and no operation ever moves status away from finished
(resign and acceptDraw keep it finished, offerDraw leaves it untouched);
however resign and acceptDraw carry no status guard, so winner and the draw
offer can still be rewritten on a finished match. -/
theorem finished_match_operations (g : Match) (h : g.status = "finished") :
    (∀ f t p now, ∃ e, GameModel.makeMove g f t p now = Except.error e) ∧
    (∀ now, GameModel.forfeitTurn g now = g) ∧
    (∀ c, (GameModel.resignGame g c).status = "finished") ∧
    (GameModel.acceptDraw g).status = "finished" ∧
    (∀ c, (GameModel.offerDraw g c).status = "finished") := by
  refine ⟨?_, ?_, ?_, ?_, ?_⟩
  · intro f t p now
    refine ⟨"Game not active", ?_⟩
    simp [GameModel.makeMove, h]
  · intro now
    simp [GameModel.forfeitTurn, h]
  · intro c
    simp [GameModel.resignGame]
  · simp [GameModel.acceptDraw]
  · intro c
    simp [GameModel.offerDraw, h]

/-- Witness for finished_match_operations at a concrete finished match. -/
theorem finished_match_operations_witness :
    sampleFinished.status = "finished" ∧
    (∃ e, GameModel.makeMove sampleFinished ((0 : Fin 8), (0 : Fin 8))
        ((1 : Fin 8), (0 : Fin 8)) none 3 = Except.error e) ∧
    GameModel.forfeitTurn sampleFinished 3 = sampleFinished ∧
    (GameModel.resignGame sampleFinished Color.black).status = "finished" ∧
    (GameModel.acceptDraw sampleFinished).status = "finished" ∧
    (GameModel.offerDraw sampleFinished Color.white).status = "finished" := by
  have h := finished_match_operations sampleFinished rfl
  exact ⟨rfl, h.1 _ _ none 3, h.2.1 3, h.2.2.1 Color.black, h.2.2.2.1, h.2.2.2.2 Color.white⟩

/-- C3: whenever makeMove fails — status not active, move rejected by the
legality engine, or promotion piece missing — the call throws before any
write, so the stored match is entirely unchanged and sideToMove does not
flip. -/
theorem makeMove_failure_all_or_nothing (g : Match) (f t : Pos)
    (p : Option Char) (now : Nat)
    (h : g.status ≠ "active" ∨
      (ChessEngine.isValidMove g.boardState f t g.currentTurn g.lastMove).valid = false ∨
      (((g.boardState f.1 f.2).toLower = 'p' ∧ (t.1 = (0 : Fin 8) ∨ t.1 = (7 : Fin 8))) ∧
        p = none)) :
    (∃ e, GameModel.makeMove g f t p now = Except.error e) ∧
    GameModel.makeMoveDB g f t p now = g ∧
    (GameModel.makeMoveDB g f t p now).currentTurn = g.currentTurn := by
  have he : ∃ e, GameModel.makeMove g f t p now = Except.error e := by
    by_cases hs : g.status = "active"
    · rcases h with h | h | h
      · exact absurd hs h
      · exact ⟨(ChessEngine.isValidMove g.boardState f t g.currentTurn g.lastMove).reason.getD
          "Invalid move", by simp [GameModel.makeMove, hs, h]⟩
      · by_cases hv : (ChessEngine.isValidMove g.boardState f t g.currentTurn g.lastMove).valid = false
        · exact ⟨(ChessEngine.isValidMove g.boardState f t g.currentTurn g.lastMove).reason.getD
            "Invalid move", by simp [GameModel.makeMove, hs, hv]⟩
        · exact ⟨"Promotion piece required",
            by simp [GameModel.makeMove, hs, hv, h.1, h.2]⟩
    · exact ⟨"Game not active", by simp [GameModel.makeMove, hs]⟩
  obtain ⟨e, he⟩ := he
  refine ⟨⟨e, he⟩, ?_, ?_⟩ <;> simp [GameModel.makeMoveDB, he]

/-- Witness for makeMove_failure_all_or_nothing: a move on a finished match
is rejected and leaves the row unchanged. -/
theorem makeMove_failure_all_or_nothing_witness :
    sampleFinished.status ≠ "active" ∧
    ((∃ e, GameModel.makeMove sampleFinished ((6 : Fin 8), (4 : Fin 8))
        ((4 : Fin 8), (4 : Fin 8)) none 3 = Except.error e) ∧
     GameModel.makeMoveDB sampleFinished ((6 : Fin 8), (4 : Fin 8))
        ((4 : Fin 8), (4 : Fin 8)) none 3 = sampleFinished ∧
     (GameModel.makeMoveDB sampleFinished ((6 : Fin 8), (4 : Fin 8))
        ((4 : Fin 8), (4 : Fin 8)) none 3).currentTurn = sampleFinished.currentTurn) :=
  ⟨by decide, makeMove_failure_all_or_nothing sampleFinished _ _ none 3
    (Or.inl (by decide))⟩

/-- C7 failing input: the slot-taken guard is nested under a both-slots-taken
test, so joining as White while White is already taken (and Black is empty)
is accepted instead of rejected, silently overwriting the recorded white
address. -/
theorem joinGame_slot_overwrite_bug :
    cexJoin.playerWhite = true ∧ cexJoin.playerBlack = false ∧
    (GameModel.joinGame cexJoin Color.white (some "0xBBB") 5).isOk = true ∧
    ((GameModel.joinGame cexJoin Color.white (some "0xBBB") 5).toOption.map
      Match.playerWhiteAddress) = some (some "0xBBB") := by
  exact ⟨rfl, rfl, rfl, rfl⟩

/-- C8: the settlement coordinator issues an external resolve call only when
the on-chain status is Active; an already Resolved on-chain match is
reconciled to a settled local escrow status with no call; and running the
coordinator again after a successful resolution (which moves the on-chain
status to Resolved) results in exactly one resolve call in total. -/
theorem settleEscrow_idempotent (g : Match) (winner : GWinner)
    (chain : GameModel.ChainMatch)
    (hw : wagerTruthy g.wagerAmount = true)
    (hact : chain.status = (1 : Fin 4)) (hc : chain.createdAt ≠ 0)
    (haddr : winner = GWinner.draw ∨
      (winner = GWinner.white ∧ g.playerWhiteAddress ≠ none) ∨
      (winner = GWinner.black ∧ g.playerBlackAddress ≠ none)) :
    (∀ (chain' : Option GameModel.ChainMatch) (rOk : Bool),
      (GameModel.settleEscrow g winner chain' rOk).resolveCalls ≠ 0 →
      ∃ c, chain' = some c ∧ c.status = (1 : Fin 4)) ∧
    (∀ (c : GameModel.ChainMatch) (rOk : Bool), c.status = (2 : Fin 4) →
      GameModel.settleEscrow g winner (some c) rOk = ⟨0, some "settled"⟩) ∧
    (GameModel.settleEscrow g winner (some chain) true).resolveCalls = 1 ∧
    (GameModel.settleEscrow g winner (some chain) true).resolveCalls +
      (GameModel.settleEscrow g winner (some (GameModel.chainResolve chain)) true).resolveCalls = 1 ∧
    (GameModel.settleEscrow g winner (some (GameModel.chainResolve chain)) true).escrowStatus
      = some "settled" := by
  have hfin : ∀ s : Fin 4, s ≠ (2 : Fin 4) → s ≠ (3 : Fin 4) → s ≠ (0 : Fin 4) →
      s = (1 : Fin 4) := by decide
  have hone : (GameModel.settleEscrow g winner (some chain) true).resolveCalls = 1 := by
    rcases haddr with hd | ⟨hwin, ha⟩ | ⟨hwin, ha⟩
    · simp [GameModel.settleEscrow, hw, hact, hc, hd]
    · subst hwin
      rcases Option.ne_none_iff_exists.mp ha with ⟨a, ha2⟩
      simp [GameModel.settleEscrow, hw, hact, hc, ← ha2]
    · subst hwin
      rcases Option.ne_none_iff_exists.mp ha with ⟨a, ha2⟩
      simp [GameModel.settleEscrow, hw, hact, hc, ← ha2]
  refine ⟨?_, ?_, hone, ?_, ?_⟩
  · intro chain' rOk hcall
    cases chain' with
    | none => simp [GameModel.settleEscrow, hw] at hcall
    | some c =>
      refine ⟨c, rfl, ?_⟩
      by_cases h2 : c.status = (2 : Fin 4)
      · simp [GameModel.settleEscrow, hw, h2] at hcall
      · by_cases h3 : c.status = (3 : Fin 4)
        · simp [GameModel.settleEscrow, hw, h2, h3] at hcall
        · by_cases h0 : c.status = (0 : Fin 4)
          · simp [GameModel.settleEscrow, hw, h2, h3, h0] at hcall
          · exact hfin c.status h2 h3 h0
  · intro c rOk h2
    simp [GameModel.settleEscrow, hw, h2]
  · have hzero : (GameModel.settleEscrow g winner
        (some (GameModel.chainResolve chain)) true).resolveCalls = 0 := by
      simp [GameModel.settleEscrow, hw, GameModel.chainResolve]
    rw [hone, hzero]
  · simp [GameModel.settleEscrow, hw, GameModel.chainResolve]

/-- A square whose piece is not an opponent piece contributes no attack. -/
theorem attacksFrom_false_of_not_opponent (b : Board) (color : Color)
    (t kp : Pos)
    (h : ChessEngine.isOpponentPiece color (b t.1 t.2) = false) :
    ChessEngine.attacksFrom b color t kp = false := by
  simp [ChessEngine.attacksFrom, h]

/-- Attack contribution from an untouched square is unchanged when one other
square is overridden without changing any cell's emptiness. -/
theorem attacksFrom_congr (b : Board) (t : Pos) (c2 : Char) (color : Color)
    (h1 : b t.1 t.2 ≠ '.') (h2 : c2 ≠ '.') (s kp : Pos) (hst : s ≠ t) :
    ChessEngine.attacksFrom (setCell b t c2) color s kp =
      ChessEngine.attacksFrom b color s kp := by
  have hocc : ∀ r c : Int, (atI (setCell b t c2) r c = '.') = (atI b r c = '.') :=
    atI_occ b t c2 h1 h2
  have hagree : setCell b t c2 s.1 s.2 = b s.1 s.2 := by
    unfold setCell
    rw [if_neg]
    intro he
    exact hst (Prod.ext he.1 he.2)
  unfold ChessEngine.attacksFrom
  rw [hagree, rook_congr _ _ hocc, bishop_congr _ _ hocc, queen_congr _ _ hocc]

/-- The check scan is unchanged when a non-king, non-opponent, occupied
square is overridden by another non-king, non-opponent, occupied character:
the king search sees neither character and neither contributes an attack. -/
theorem isKingInCheck_setCell (b : Board) (t : Pos) (c2 : Char) (color : Color)
    (h1 : b t.1 t.2 ≠ '.') (h2 : c2 ≠ '.')
    (hk1 : b t.1 t.2 ≠ ChessEngine.kingChar color)
    (hk2 : c2 ≠ ChessEngine.kingChar color)
    (ho1 : ChessEngine.isOpponentPiece color (b t.1 t.2) = false)
    (ho2 : ChessEngine.isOpponentPiece color c2 = false) :
    ChessEngine.isKingInCheck (setCell b t c2) color =
      ChessEngine.isKingInCheck b color := by
  have hsct : setCell b t c2 t.1 t.2 = c2 := by
    unfold setCell
    rw [if_pos ⟨rfl, rfl⟩]
  have hfind : ChessEngine.findKing (setCell b t c2) color =
      ChessEngine.findKing b color := by
    unfold ChessEngine.findKing
    apply find_congr_list
    intro s _
    by_cases hst : s = t
    · subst hst
      rw [hsct, decide_eq_false hk2, decide_eq_false hk1]
    · have hagree : setCell b t c2 s.1 s.2 = b s.1 s.2 := by
        unfold setCell
        rw [if_neg]
        intro he
        exact hst (Prod.ext he.1 he.2)
      rw [hagree]
  unfold ChessEngine.isKingInCheck
  rw [hfind]
  cases hfk : ChessEngine.findKing b color with
  | none => rfl
  | some kp =>
    apply any_congr_list
    intro s _
    by_cases hst : s = t
    · subst hst
      rw [attacksFrom_false_of_not_opponent _ _ _ _ (by rw [hsct]; exact ho2),
        attacksFrom_false_of_not_opponent _ _ _ _ ho1]
    · exact attacksFrom_congr b t c2 color h1 h2 s kp hst

/-- The engine transform with a promotion piece equals the transform without
one followed by overwriting the destination with the case-adjusted piece,
whenever the promotion condition holds. -/
theorem engine_makeMove_promo_some (b : Board) (f t : Pos) (p : Char)
    (ep : Bool)
    (hc : (b f.1 f.2).toLower = 'p' ∧ (t.1 = (0 : Fin 8) ∨ t.1 = (7 : Fin 8))) :
    ChessEngine.makeMove b f t (some p) ep =
      setCell (ChessEngine.makeMove b f t none ep) t
        (promoCaseAdjusted (b f.1 f.2) p) := by
  unfold ChessEngine.makeMove promoCaseAdjusted
  rw [if_pos hc, if_pos hc]

/-- Without the promotion condition the supplied promotion piece is ignored. -/
theorem engine_makeMove_no_promo (b : Board) (f t : Pos) (p : Char) (ep : Bool)
    (hc : ¬ ((b f.1 f.2).toLower = 'p' ∧ (t.1 = (0 : Fin 8) ∨ t.1 = (7 : Fin 8)))) :
    ChessEngine.makeMove b f t (some p) ep = ChessEngine.makeMove b f t none ep := by
  unfold ChessEngine.makeMove
  rw [if_neg hc, if_neg hc]

/-- With no promotion piece, the destination square of the transform holds
the moved piece, provided the move changes row and an en-passant move
changes column. -/
theorem engine_makeMove_none_dest (b : Board) (f t : Pos) (ep : Bool)
    (hf : f.1 ≠ t.1) (hep : ep = true → t.2 ≠ f.2) :
    (ChessEngine.makeMove b f t none ep) t.1 t.2 = b f.1 f.2 := by
  have hmain : ¬ (t.1 = f.1 ∧ t.2 = f.2) := fun he => hf he.1.symm
  cases hepb : ep with
  | false => simp [ChessEngine.makeMove, setCell, hmain]
  | true =>
    have hcol : ¬ (f.2 = t.2) := fun he => (hep hepb) he.symm
    simp [ChessEngine.makeMove, setCell, hmain, hcol]

/-- A character unchanged by toUpper, or changed by toLower, is its own
uppercase form. -/
theorem char_eq_upper_of_ne_lower (c : Char) (h : ¬ c = c.toLower) :
    c = c.toUpper := by
  by_cases h1 : (65 ≤ c.toNat ∧ c.toNat ≤ 90)
  · unfold Char.toUpper
    rw [if_neg (by omega)]
  · exfalso
    apply h
    unfold Char.toLower
    rw [if_neg (by omega)]

/-- A valid pawn move always changes row, and an en-passant pawn move always
changes column. -/
theorem pawn_valid_rows (b : Board) (f t : Pos) (turn : Color)
    (lm : Option LastMove)
    (h : (ChessEngine.isValidPawnMove b f t turn lm).valid = true) :
    f.1 ≠ t.1 ∧
    ((ChessEngine.isValidPawnMove b f t turn lm).enPassant = true → t.2 ≠ f.2) := by
  by_cases hc0 : (rI t.2 - rI f.2).natAbs = 0
  · by_cases hA : (rI t.1 - rI f.1 = (if turn = Color.white then (-1 : Int) else 1) ∧
        b t.1 t.2 = '.')
    · constructor
      · intro heq
        have hd := hA.1
        rw [heq] at hd
        cases turn <;> simp [rI] at hd
      · intro hep
        simp [ChessEngine.isValidPawnMove, hc0, hA] at hep
    · by_cases hB : ((f.1 : Nat) = (if turn = Color.white then 6 else 1) ∧
          rI t.1 - rI f.1 = (if turn = Color.white then (-2 : Int) else 2) ∧
          b t.1 t.2 = '.' ∧
          atI b (rI f.1 + (if turn = Color.white then (-1 : Int) else 1)) (rI f.2) = '.')
      · constructor
        · intro heq
          have hd := hB.2.1
          rw [heq] at hd
          cases turn <;> simp [rI] at hd
        · intro hep
          simp [ChessEngine.isValidPawnMove, hc0, hA, hB] at hep
      · simp [ChessEngine.isValidPawnMove, hc0, hA, hB] at h
  · by_cases hc1 : ((rI t.2 - rI f.2).natAbs = 1 ∧
        rI t.1 - rI f.1 = (if turn = Color.white then (-1 : Int) else 1))
    · constructor
      · intro heq
        have hd := hc1.2
        rw [heq] at hd
        cases turn <;> simp [rI] at hd
      · intro _ heq
        apply hc0
        rw [heq]
        simp
    · simp [ChessEngine.isValidPawnMove, hc0, hc1] at h

/-- Elimination principle for a successful legality check: the result is the
success record, the self-check filter passed on the tentatively applied
board, the moving piece belongs to the mover, and in the pawn case the pawn
shape check succeeded with the same en-passant flag (a non-pawn never sets
the flag). -/
theorem isValidMove_valid_facts (b : Board) (f t : Pos) (turn : Color)
    (lm : Option LastMove) (R : ChessEngine.ValidResult)
    (hR : ChessEngine.isValidMove b f t turn lm = R) (hv : R.valid = true) :
    ChessEngine.isKingInCheck (ChessEngine.makeMove b f t none R.enPassant) turn = false ∧
    ChessEngine.isOpponentPiece turn (b f.1 f.2) = false ∧
    ((b f.1 f.2).toLower = 'p' →
      (ChessEngine.isValidPawnMove b f t turn lm).valid = true ∧
      R.enPassant = (ChessEngine.isValidPawnMove b f t turn lm).enPassant) ∧
    ((b f.1 f.2).toLower ≠ 'p' → R.enPassant = false) := by
  simp only [ChessEngine.isValidMove] at hR
  split at hR
  · subst hR
    exact absurd hv (by decide)
  · split at hR
    · subst hR
      exact absurd hv (by decide)
    · split at hR
      · subst hR
        exact absurd hv (by decide)
      · rename_i hne hown htg
        have ho : ChessEngine.isOpponentPiece turn (b f.1 f.2) = false := by
          cases turn with
          | white =>
            apply decide_eq_false
            intro hx
            exact hown (Or.inl ⟨rfl, hx⟩)
          | black =>
            apply decide_eq_false
            intro hx
            exact hown (Or.inr ⟨rfl, hx⟩)
        split at hR
        · subst hR
          exact absurd hv (by decide)
        · rename_i ok isEnPassant heq
          split at hR
          · subst hR
            exact absurd hv (by decide)
          · rename_i hok
            split at hR
            · subst hR
              exact absurd hv (by decide)
            · rename_i hchk
              subst hR
              have hepfacts :
                  ((b f.1 f.2).toLower = 'p' →
                    (ChessEngine.isValidPawnMove b f t turn lm).valid = true ∧
                    isEnPassant = (ChessEngine.isValidPawnMove b f t turn lm).enPassant) ∧
                  ((b f.1 f.2).toLower ≠ 'p' → isEnPassant = false) := by
                constructor
                · intro hp
                  rw [if_pos hp] at heq
                  have h1 := (Option.some.injEq _ _).mp heq
                  have h2 := (Prod.mk.injEq _ _ _ _).mp h1
                  constructor
                  · rw [h2.1]
                    by_cases hb : ok = false
                    · exact absurd hb hok
                    · simpa using hb
                  · exact h2.2.symm
                · intro hp
                  rw [if_neg hp] at heq
                  repeat' split at heq
                  all_goals first
                    | (have h1 := (Option.some.injEq _ _).mp heq
                       exact ((Prod.mk.injEq _ _ _ _).mp h1).2.symm)
                    | exact Option.noConfusion heq
              refine ⟨by simpa using hchk, ho, hepfacts.1, hepfacts.2⟩

/-- C1 amended: if isValidMove accepts a move, then applying it — honoring
the en-passant flag, with no promotion piece or any standard one (queen,
rook, bishop or knight of either case) — leaves the mover's own king out of
check; in particular a move out of check is accepted only if it escapes the
check.  The restriction to standard promotion pieces is forced by the
counterexample: promoting to a king places a second king that the check scan
can find first. -/
theorem isValidMove_self_check_filter (b : Board) (f t : Pos) (turn : Color)
    (lm : Option LastMove) (promo : Option Char) (hstd : promoStd promo)
    (hv : (ChessEngine.isValidMove b f t turn lm).valid = true) :
    ChessEngine.isKingInCheck
      (ChessEngine.makeMove b f t promo
        ((ChessEngine.isValidMove b f t turn lm).enPassant)) turn = false := by
  obtain ⟨ha, ho, hpawnf, hnonp⟩ := isValidMove_valid_facts b f t turn lm _ rfl hv
  rcases hstd with rfl | ⟨c, rfl, hc⟩
  · exact ha
  · by_cases hcond : ((b f.1 f.2).toLower = 'p' ∧
        (t.1 = (0 : Fin 8) ∨ t.1 = (7 : Fin 8)))
    · obtain ⟨hpv, hepe⟩ := hpawnf hcond.1
      obtain ⟨hrow, hcol⟩ := pawn_valid_rows b f t turn lm hpv
      rw [engine_makeMove_promo_some b f t c _ hcond]
      have hdest : (ChessEngine.makeMove b f t none
          ((ChessEngine.isValidMove b f t turn lm).enPassant)) t.1 t.2 = b f.1 f.2 :=
        engine_makeMove_none_dest b f t _ hrow
          (fun hep => hcol (by rw [← hepe]; exact hep))
      have hpne : b f.1 f.2 ≠ '.' := by
        intro hx
        have h1 := hcond.1
        rw [hx] at h1
        exact absurd h1 (by decide)
      have hkne : b f.1 f.2 ≠ ChessEngine.kingChar turn := by
        intro hx
        have h1 := hcond.1
        rw [hx] at h1
        cases turn <;> exact absurd h1 (by decide)
      have h1b : (ChessEngine.makeMove b f t none
          ((ChessEngine.isValidMove b f t turn lm).enPassant)) t.1 t.2 ≠ '.' := by
        rw [hdest]; exact hpne
      have hk1b : (ChessEngine.makeMove b f t none
          ((ChessEngine.isValidMove b f t turn lm).enPassant)) t.1 t.2 ≠
          ChessEngine.kingChar turn := by
        rw [hdest]; exact hkne
      have ho1b : ChessEngine.isOpponentPiece turn
          ((ChessEngine.makeMove b f t none
            ((ChessEngine.isValidMove b f t turn lm).enPassant)) t.1 t.2) = false := by
        rw [hdest]; exact ho
      simp only [List.mem_cons, List.mem_singleton, List.not_mem_nil, or_false] at hc
      cases turn with
      | white =>
        have hnl : ¬ (b f.1 f.2 = (b f.1 f.2).toLower) := by
          simpa [ChessEngine.isOpponentPiece] using ho
        have hup : b f.1 f.2 = (b f.1 f.2).toUpper := char_eq_upper_of_ne_lower _ hnl
        have hadj : promoCaseAdjusted (b f.1 f.2) c = c.toUpper := by
          unfold promoCaseAdjusted
          rw [if_pos hup]
        rw [hadj]
        rcases hc with rfl | rfl | rfl | rfl | rfl | rfl | rfl | rfl <;>
          (rw [isKingInCheck_setCell _ _ _ _ h1b (by decide) hk1b (by decide)
            ho1b (by decide)]; exact ha)
      | black =>
        have hnu : ¬ (b f.1 f.2 = (b f.1 f.2).toUpper) := by
          simpa [ChessEngine.isOpponentPiece] using ho
        have hadj : promoCaseAdjusted (b f.1 f.2) c = c.toLower := by
          unfold promoCaseAdjusted
          rw [if_neg hnu]
        rw [hadj]
        rcases hc with rfl | rfl | rfl | rfl | rfl | rfl | rfl | rfl <;>
          (rw [isKingInCheck_setCell _ _ _ _ h1b (by decide) hk1b (by decide)
            ho1b (by decide)]; exact ha)
    · rw [engine_makeMove_no_promo b f t c _ hcond]
      exact ha

/-- C1 counterexample: on cexC1Board the pawn push (1,0)-(0,0) is accepted
by isValidMove, yet applying it with promotion piece k leaves the check scan
reporting White in check (the promoted king on the back rank is found first
and is attacked by the rook), refuting the claim for arbitrary promotion
pieces. -/
theorem isValidMove_self_check_filter_counterexample :
    (ChessEngine.isValidMove cexC1Board ((1 : Fin 8), (0 : Fin 8))
      ((0 : Fin 8), (0 : Fin 8)) Color.white none).valid = true ∧
    ChessEngine.isKingInCheck
      (ChessEngine.makeMove cexC1Board ((1 : Fin 8), (0 : Fin 8))
        ((0 : Fin 8), (0 : Fin 8)) (some 'k')
        ((ChessEngine.isValidMove cexC1Board ((1 : Fin 8), (0 : Fin 8))
          ((0 : Fin 8), (0 : Fin 8)) Color.white none).enPassant)) Color.white = true := by
  exact ⟨by decide, by decide⟩

/-- Witness for isValidMove_self_check_filter: the opening move e2-e4 with
no promotion piece. -/
theorem isValidMove_self_check_filter_witness :
    promoStd none ∧
    (ChessEngine.isValidMove ChessEngine.initBoard ((6 : Fin 8), (4 : Fin 8))
      ((4 : Fin 8), (4 : Fin 8)) Color.white none).valid = true ∧
    ChessEngine.isKingInCheck
      (ChessEngine.makeMove ChessEngine.initBoard ((6 : Fin 8), (4 : Fin 8))
        ((4 : Fin 8), (4 : Fin 8)) none
        ((ChessEngine.isValidMove ChessEngine.initBoard ((6 : Fin 8), (4 : Fin 8))
          ((4 : Fin 8), (4 : Fin 8)) Color.white none).enPassant)) Color.white = false :=
  ⟨Or.inl rfl, by decide,
   isValidMove_self_check_filter ChessEngine.initBoard ((6 : Fin 8), (4 : Fin 8))
     ((4 : Fin 8), (4 : Fin 8)) Color.white none none (Or.inl rfl) (by decide)⟩

/-- A pawn's diagonal step onto an empty square passes the pawn shape check
only through the en-passant branch, which requires the last move to be a
two-row pawn advance landing on the mover's origin row in the destination
column. -/
theorem pawn_diag_empty_requires_ep (b : Board) (f t : Pos) (turn : Color)
    (lm : Option LastMove) (hemp : b t.1 t.2 = '.') (hdiag : f.2 ≠ t.2)
    (hv : (ChessEngine.isValidPawnMove b f t turn lm).valid = true) :
    ChessEngine.isValidPawnMove b f t turn lm = ⟨true, true⟩ ∧
    ∃ m, lm = some m ∧ m.piece.toLower = 'p' ∧
      (rI m.toPos.1 - rI m.fromPos.1).natAbs = 2 ∧ m.toPos.1 = f.1 ∧
      m.toPos.2 = t.2 := by
  have hcol : ¬ ((rI t.2 - rI f.2).natAbs = 0) := by
    intro h0
    apply hdiag
    apply Fin.ext
    have h1 := Int.natAbs_eq_zero.mp h0
    simp only [rI] at h1
    omega
  by_cases h1 : ((rI t.2 - rI f.2).natAbs = 1 ∧
      rI t.1 - rI f.1 = (if turn = Color.white then (-1 : Int) else 1))
  · cases lm with
    | none => simp [ChessEngine.isValidPawnMove, hcol, h1, hemp] at hv
    | some m =>
      by_cases hpat : (m.piece.toLower = 'p' ∧
          (rI m.toPos.1 - rI m.fromPos.1).natAbs = 2 ∧ m.toPos.1 = f.1 ∧
          m.toPos.2 = t.2)
      · obtain ⟨hp1, hp2, hp3, hp4⟩ := hpat
        refine ⟨?_, m, rfl, hp1, hp2, hp3, hp4⟩
        rw [hp3] at hp2
        simp [ChessEngine.isValidPawnMove, hcol, h1, hemp, hp1, hp2, hp3, hp4]
      · simp [ChessEngine.isValidPawnMove, hcol, h1, hemp, hpat] at hv
  · simp [ChessEngine.isValidPawnMove, hcol, h1] at hv

/-- C4: a pawn's diagonal move onto an empty square is accepted — and then
flagged enPassant — only when the last move records a pawn that advanced
exactly two rows, landing on the mover's origin row in the destination
column; with any other (or no) last move the same capture is rejected, which
is this statement's contrapositive. -/
theorem isValidMove_ep_window (b : Board) (f t : Pos) (turn : Color)
    (lm : Option LastMove) (hemp : b t.1 t.2 = '.')
    (hpawn : (b f.1 f.2).toLower = 'p') (hdiag : f.2 ≠ t.2)
    (hv : (ChessEngine.isValidMove b f t turn lm).valid = true) :
    (ChessEngine.isValidMove b f t turn lm).enPassant = true ∧
    ∃ m, lm = some m ∧ m.piece.toLower = 'p' ∧
      (rI m.toPos.1 - rI m.fromPos.1).natAbs = 2 ∧ m.toPos.1 = f.1 ∧
      m.toPos.2 = t.2 := by
  have hne : b f.1 f.2 ≠ '.' := by
    intro h
    rw [h] at hpawn
    exact absurd hpawn (by decide)
  by_cases hown : ((turn = Color.white ∧ b f.1 f.2 = 'p') ∨
      (turn = Color.black ∧ b f.1 f.2 = (b f.1 f.2).toUpper))
  · simp [ChessEngine.isValidMove, hne, hpawn, hown] at hv
  · by_cases hpv : (ChessEngine.isValidPawnMove b f t turn lm).valid = false
    · simp [ChessEngine.isValidMove, hne, hown, hemp, hpawn, hpv] at hv
    · have hpv2 : (ChessEngine.isValidPawnMove b f t turn lm).valid = true := by
        simpa using hpv
      obtain ⟨hpr, m, hm, hm1, hm2, hm3, hm4⟩ :=
        pawn_diag_empty_requires_ep b f t turn lm hemp hdiag hpv2
      refine ⟨?_, m, hm, hm1, hm2, hm3, hm4⟩
      by_cases hchk : ChessEngine.isKingInCheck
          (ChessEngine.makeMove b f t none true) turn = true
      · simp [ChessEngine.isValidMove, hne, hown, hemp, hpawn, hpr, hchk] at hv
      · simp [ChessEngine.isValidMove, hne, hown, hemp, hpawn, hpr, hchk]

/-- Witness for isValidMove_ep_window: White's pawn on (3,4) captures en
passant on (2,3) right after Black's double step to (3,3). -/
theorem isValidMove_ep_window_witness :
    epBoard (2 : Fin 8) (3 : Fin 8) = '.' ∧
    (epBoard (3 : Fin 8) (4 : Fin 8)).toLower = 'p' ∧
    (ChessEngine.isValidMove epBoard ((3 : Fin 8), (4 : Fin 8))
      ((2 : Fin 8), (3 : Fin 8)) Color.white (some epLastMove)).valid = true ∧
    ((ChessEngine.isValidMove epBoard ((3 : Fin 8), (4 : Fin 8))
        ((2 : Fin 8), (3 : Fin 8)) Color.white (some epLastMove)).enPassant = true ∧
     ∃ m, (some epLastMove : Option LastMove) = some m ∧ m.piece.toLower = 'p' ∧
       (rI m.toPos.1 - rI m.fromPos.1).natAbs = 2 ∧ m.toPos.1 = (3 : Fin 8) ∧
       m.toPos.2 = (3 : Fin 8)) :=
  ⟨by decide, by decide, by decide,
   isValidMove_ep_window epBoard ((3 : Fin 8), (4 : Fin 8))
     ((2 : Fin 8), (3 : Fin 8)) Color.white (some epLastMove)
     (by decide) (by decide) (by decide) (by decide)⟩

/-- Destination square of the engine's board transform when a pawn promotes
with a supplied piece. -/
theorem engine_makeMove_promotion_dest (b : Board) (f t : Pos) (p : Char)
    (ep : Bool) (hp : (b f.1 f.2).toLower = 'p')
    (hr : t.1 = (0 : Fin 8) ∨ t.1 = (7 : Fin 8)) :
    (ChessEngine.makeMove b f t (some p) ep) t.1 t.2 =
      promoCaseAdjusted (b f.1 f.2) p := by
  simp [ChessEngine.makeMove, setCell, promoCaseAdjusted, hp, hr]

/-- C5: a valid pawn move reaching the far rank is rejected with the
promotion-piece-required error when no promotion piece is supplied, and with
one supplied it succeeds and the destination square of the resulting board
holds the requested kind, case-matched to the moving pawn's color. -/
theorem makeMove_promotion (g : Match) (f t : Pos) (now : Nat)
    (hact : g.status = "active")
    (hv : (ChessEngine.isValidMove g.boardState f t g.currentTurn g.lastMove).valid = true)
    (hp : (g.boardState f.1 f.2).toLower = 'p')
    (hr : t.1 = (0 : Fin 8) ∨ t.1 = (7 : Fin 8)) :
    GameModel.makeMove g f t none now = Except.error "Promotion piece required" ∧
    ∀ p : Char, ∃ g', GameModel.makeMove g f t (some p) now = Except.ok g' ∧
      g'.boardState t.1 t.2 = promoCaseAdjusted (g.boardState f.1 f.2) p := by
  constructor
  · simp [GameModel.makeMove, hact, hv, hp, hr]
  · intro p
    refine ⟨GameModel.makeMoveUpdate g f t (some p) now, ?_, ?_⟩
    · simp [GameModel.makeMove, hact, hv]
    · have hb : (GameModel.makeMoveUpdate g f t (some p) now).boardState =
          ChessEngine.makeMove g.boardState f t (some p)
            (ChessEngine.isValidMove g.boardState f t g.currentTurn g.lastMove).enPassant := by
        simp [GameModel.makeMoveUpdate]
      rw [hb, engine_makeMove_promotion_dest _ _ _ _ _ hp hr]

/-- Witness for makeMove_promotion: a white pawn on (1,6) promoting on (0,6)
is rejected without a promotion piece and promotes to a white queen with
one. -/
theorem makeMove_promotion_witness :
    samplePromotion.status = "active" ∧
    (ChessEngine.isValidMove samplePromotion.boardState ((1 : Fin 8), (6 : Fin 8))
      ((0 : Fin 8), (6 : Fin 8)) samplePromotion.currentTurn samplePromotion.lastMove).valid = true ∧
    (samplePromotion.boardState (1 : Fin 8) (6 : Fin 8)).toLower = 'p' ∧
    (GameModel.makeMove samplePromotion ((1 : Fin 8), (6 : Fin 8))
        ((0 : Fin 8), (6 : Fin 8)) none 9 = Except.error "Promotion piece required" ∧
     ∃ g', GameModel.makeMove samplePromotion ((1 : Fin 8), (6 : Fin 8))
        ((0 : Fin 8), (6 : Fin 8)) (some 'q') 9 = Except.ok g' ∧
       g'.boardState (0 : Fin 8) (6 : Fin 8) =
         promoCaseAdjusted (samplePromotion.boardState (1 : Fin 8) (6 : Fin 8)) 'q') := by
  have h := makeMove_promotion samplePromotion ((1 : Fin 8), (6 : Fin 8))
    ((0 : Fin 8), (6 : Fin 8)) 9 rfl (by decide) (by decide) (Or.inl rfl)
  exact ⟨rfl, by decide, by decide, h.1, h.2 'q'⟩

/-- C10: the promotion piece is never validated — for every valid pawn move
to the far rank, makeMove accepts any supplied promotion character and
commits the update built from it. -/
theorem makeMove_promotion_unvalidated (g : Match) (f t : Pos) (now : Nat)
    (p : Char) (hact : g.status = "active")
    (hv : (ChessEngine.isValidMove g.boardState f t g.currentTurn g.lastMove).valid = true) :
    GameModel.makeMove g f t (some p) now =
      Except.ok (GameModel.makeMoveUpdate g f t (some p) now) := by
  simp [GameModel.makeMove, hact, hv]

/-- Witness for makeMove_promotion_unvalidated: promoting with the letter k
is accepted and leaves two white kings on the board. -/
theorem makeMove_promotion_unvalidated_witness :
    samplePromotion.status = "active" ∧
    (ChessEngine.isValidMove samplePromotion.boardState ((1 : Fin 8), (6 : Fin 8))
      ((0 : Fin 8), (6 : Fin 8)) samplePromotion.currentTurn samplePromotion.lastMove).valid = true ∧
    GameModel.makeMove samplePromotion ((1 : Fin 8), (6 : Fin 8))
        ((0 : Fin 8), (6 : Fin 8)) (some 'k') 9 =
      Except.ok (GameModel.makeMoveUpdate samplePromotion ((1 : Fin 8), (6 : Fin 8))
        ((0 : Fin 8), (6 : Fin 8)) (some 'k') 9) ∧
    countChar (GameModel.makeMoveUpdate samplePromotion ((1 : Fin 8), (6 : Fin 8))
        ((0 : Fin 8), (6 : Fin 8)) (some 'k') 9).boardState 'K' = 2 :=
  ⟨rfl, by decide,
   makeMove_promotion_unvalidated samplePromotion _ _ 9 'k' rfl (by decide),
   by decide⟩

/-- C6: an accepted move after which the opposing king is absent from the
resulting board ends the game at once in the mover's favor — status becomes
finished, winner is the mover's color — and the check, checkmate and
stalemate evaluations of that transition are recorded as false (inCheck is
false, the move record carries false flags, and the winner is never the
stalemate draw). -/
theorem makeMove_king_capture_ends_game (g : Match) (f t : Pos)
    (p : Option Char) (now : Nat) (g' : Match)
    (h : GameModel.makeMove g f t p now = Except.ok g')
    (hk : boardHasChar g'.boardState
      (ChessEngine.kingChar (oppColor g.currentTurn)) = false) :
    g'.status = "finished" ∧
    g'.winner = some (colorWinner g.currentTurn) ∧
    g'.inCheck = false ∧
    ∃ r, g'.moves = g.moves ++ [r] ∧ r.isCheck = false ∧ r.isCheckmate = false := by
  have hg : g' = GameModel.makeMoveUpdate g f t p now := by
    simp only [GameModel.makeMove] at h
    split at h
    · exact absurd h (by simp)
    · split at h
      · exact absurd h (by simp)
      · split at h
        · exact absurd h (by simp)
        · exact ((Except.ok.injEq _ _).mp h).symm
  subst hg
  have hk2 : boardHasChar
      (ChessEngine.makeMove g.boardState f t p
        (ChessEngine.isValidMove g.boardState f t g.currentTurn g.lastMove).enPassant)
      (ChessEngine.kingChar (oppColor g.currentTurn)) = false := by
    simpa [GameModel.makeMoveUpdate] using hk
  refine ⟨?_, ?_, ?_, ⟨_, rfl, ?_, ?_⟩⟩ <;>
    simp [GameModel.makeMoveUpdate, hk2]

/-- Witness for makeMove_king_capture_ends_game: the rook capture of the
black king on the king-capture board finishes the game for White. -/
theorem makeMove_king_capture_ends_game_witness :
    GameModel.makeMove sampleKingCapture ((3 : Fin 8), (0 : Fin 8))
        ((3 : Fin 8), (7 : Fin 8)) none 9 =
      Except.ok (GameModel.makeMoveUpdate sampleKingCapture ((3 : Fin 8), (0 : Fin 8))
        ((3 : Fin 8), (7 : Fin 8)) none 9) ∧
    boardHasChar (GameModel.makeMoveUpdate sampleKingCapture ((3 : Fin 8), (0 : Fin 8))
        ((3 : Fin 8), (7 : Fin 8)) none 9).boardState
      (ChessEngine.kingChar (oppColor sampleKingCapture.currentTurn)) = false ∧
    ((GameModel.makeMoveUpdate sampleKingCapture ((3 : Fin 8), (0 : Fin 8))
        ((3 : Fin 8), (7 : Fin 8)) none 9).status = "finished" ∧
     (GameModel.makeMoveUpdate sampleKingCapture ((3 : Fin 8), (0 : Fin 8))
        ((3 : Fin 8), (7 : Fin 8)) none 9).winner =
       some (colorWinner sampleKingCapture.currentTurn) ∧
     (GameModel.makeMoveUpdate sampleKingCapture ((3 : Fin 8), (0 : Fin 8))
        ((3 : Fin 8), (7 : Fin 8)) none 9).inCheck = false ∧
     ∃ r, (GameModel.makeMoveUpdate sampleKingCapture ((3 : Fin 8), (0 : Fin 8))
        ((3 : Fin 8), (7 : Fin 8)) none 9).moves = sampleKingCapture.moves ++ [r] ∧
       r.isCheck = false ∧ r.isCheckmate = false) := by
  have h1 : GameModel.makeMove sampleKingCapture ((3 : Fin 8), (0 : Fin 8))
      ((3 : Fin 8), (7 : Fin 8)) none 9 =
      Except.ok (GameModel.makeMoveUpdate sampleKingCapture ((3 : Fin 8), (0 : Fin 8))
        ((3 : Fin 8), (7 : Fin 8)) none 9) := by rfl
  have h2 : boardHasChar (GameModel.makeMoveUpdate sampleKingCapture ((3 : Fin 8), (0 : Fin 8))
      ((3 : Fin 8), (7 : Fin 8)) none 9).boardState
      (ChessEngine.kingChar (oppColor sampleKingCapture.currentTurn)) = false := by decide
  exact ⟨h1, h2, makeMove_king_capture_ends_game sampleKingCapture _ _ none 9 _ h1 h2⟩

/-- Witness for settleEscrow_idempotent: a wagered match resolved for White
issues one call the first time and none the second. -/
theorem settleEscrow_idempotent_witness :
    wagerTruthy sampleWagered.wagerAmount = true ∧
    ((GameModel.settleEscrow sampleWagered GWinner.white
        (some ⟨10, (1 : Fin 4)⟩) true).resolveCalls = 1 ∧
     (GameModel.settleEscrow sampleWagered GWinner.white
        (some ⟨10, (1 : Fin 4)⟩) true).resolveCalls +
       (GameModel.settleEscrow sampleWagered GWinner.white
         (some (GameModel.chainResolve ⟨10, (1 : Fin 4)⟩)) true).resolveCalls = 1 ∧
     (GameModel.settleEscrow sampleWagered GWinner.white
        (some (GameModel.chainResolve ⟨10, (1 : Fin 4)⟩)) true).escrowStatus = some "settled") := by
  have h := settleEscrow_idempotent sampleWagered GWinner.white ⟨10, (1 : Fin 4)⟩
    (by decide) rfl (by decide) (Or.inr (Or.inl ⟨rfl, by decide⟩))
  exact ⟨by decide, h.2.2.1, h.2.2.2.1, h.2.2.2.2⟩

end Chesster
